import Mathlib

/-!
Verification development for the qsim quantum-circuit simulator
(`qsim/core/backends.py`, `qsim/core/instruction.py`, `qsim/core/circuit.py`).

The Python code is shallowly embedded: numpy complex arrays become functions
`Fin (2^n) → ℂ` (or `List ℂ` where the code checks lengths at runtime),
stateful methods become explicit state-passing functions, exceptions become
`Except` / `Option` results, and the random sample drawn by
`np.random.choice` becomes an explicit `pick` argument.

The repository files `qsim/core/utils.py`, `qsim/core/gates.py` and
`qsim/core/register.py` are not present under `src/`; the definitions taken
from them (`ZERO`, `ONE`, `kron`, `get_projector`, `str_to_list`,
`GATE_DICT`, `cgate`, `single_gate`, and `scipy.linalg.norm`) are modelled
from the specification and marked as such in their doc comments.
-/

namespace Qsim

open scoped Classical
open Complex Matrix

/-- Error kinds raised by the engine (the Python code raises `ValueError` /
`KeyError` with distinguishing messages; the spec names the kinds). -/
inductive ErrKind where
  | dimensionMismatch
  | notNormalized
  | complexProbability
  | missingParameter
  | unknownGate
deriving DecidableEq

/-- Modelled from the spec: `utils.ZERO`, the computational basis state `|0⟩ = (1, 0)`. -/
def ZERO : Fin 2 → ℂ := ![1, 0]

/-- Modelled from the spec: `utils.ONE`, the computational basis state `|1⟩ = (0, 1)`. -/
def ONE : Fin 2 → ℂ := ![0, 1]

/-- Bit `q` (qubit `0` most significant, the iterated-Kronecker construction
order) of the basis index `i` for an `n`-qubit register. -/
def bitAt (n q i : ℕ) : Fin 2 :=
  ⟨i / 2 ^ (n - 1 - q) % 2, Nat.mod_lt _ (by norm_num)⟩

/-- Modelled from the spec: `utils.kron` on a family of single-qubit (2×2)
matrices — the iterated Kronecker product, written entrywise in the standard
binary basis encoding (qubit 0 most significant). -/
noncomputable def kronN (n : ℕ) (parts : ℕ → Matrix (Fin 2) (Fin 2) ℂ) :
    Matrix (Fin (2 ^ n)) (Fin (2 ^ n)) ℂ :=
  fun i j => ∏ q ∈ Finset.range n, parts q (bitAt n q i) (bitAt n q j)

/-- Modelled from the spec: `utils.kron` on a family of single-qubit state
vectors, written entrywise (qubit 0 most significant). -/
noncomputable def kronVecN (n : ℕ) (parts : ℕ → Fin 2 → ℂ) : Fin (2 ^ n) → ℂ :=
  fun i => ∏ q ∈ Finset.range n, parts q (bitAt n q i)

/-- Sum of `|amp_i|²` of a vector. -/
noncomputable def cnormSq {N : ℕ} (v : Fin N → ℂ) : ℝ :=
  ∑ i, Complex.normSq (v i)

/-- Modelled from the spec: the Euclidean norm `scipy.linalg.norm` on a
`Fin`-indexed vector. -/
noncomputable def vnormF {N : ℕ} (v : Fin N → ℂ) : ℝ :=
  Real.sqrt (cnormSq v)

/-- Modelled from the spec: the Euclidean norm `scipy.linalg.norm` on a raw
(length-unchecked) array. -/
noncomputable def lnorm (l : List ℂ) : ℝ :=
  Real.sqrt (l.map Complex.normSq).sum

/-- `np.dot(x, y)` on two vectors: `∑ i, x i * y i`. -/
noncomputable def dotC {N : ℕ} (x y : Fin N → ℂ) : ℂ :=
  ∑ i, x i * y i

/-- The state held by `backends.StateVector`: the amplitude buffer `amp` and
the snapshot log (each snapshot stored as the amplitude vector of the copied
`StateVector`; the `qubits`/`basis` fields are display-only bookkeeping). -/
structure StateVector (n : ℕ) where
  amp : Fin (2 ^ n) → ℂ
  snapshots : List (Fin (2 ^ n) → ℂ)

/-- The default initial state `kron([ZERO] * n_qubits)` built by
`StateVector.set` when no amplitude vector is supplied, as a raw array. -/
noncomputable def defaultState (n : ℕ) : List ℂ :=
  List.ofFn (kronVecN n fun _ => ZERO)

/-- The first line of `StateVector.set`:
`state = kron([ZERO] * self.n_qubits) if amp is None else np.copy(amp)`. -/
noncomputable def resolveAmp (n : ℕ) (amp? : Option (List ℂ)) : List ℂ :=
  match amp? with
  | none => defaultState n
  | some l => l

/-- `StateVector.set` (backends.py lines 58–71): resolve the supplied
amplitudes (default `kron([ZERO]*n)`), fail with a dimension-mismatch error
if the length is not `2^n`, fail with a not-normalized error if the norm
rounded to 10 decimals is not `1.0`, else store the vector divided by its
norm.  The snapshot log is untouched. -/
noncomputable def StateVector.set {n : ℕ} (sv : StateVector n)
    (amp? : Option (List ℂ)) : Except ErrKind (StateVector n) :=
  let state : List ℂ := resolveAmp n amp?
  if state.length ≠ 2 ^ n then .error .dimensionMismatch
  else if round (lnorm state * 10 ^ 10) ≠ 10 ^ 10 then .error .notNormalized
  else .ok ⟨fun i => state.getD i 0 / (lnorm state : ℂ), sv.snapshots⟩

/-- `StateVector.set` viewed as a mutation: the post-call state paired with
the raised error, if any (a Python `raise` leaves `self.amp` untouched since
both checks precede the assignment). -/
noncomputable def StateVector.setMut {n : ℕ} (sv : StateVector n)
    (amp? : Option (List ℂ)) : StateVector n × Option ErrKind :=
  match sv.set amp? with
  | .error e => (sv, some e)
  | .ok sv' => (sv', none)

/-- `StateVector.apply_unitary` (backends.py lines 234–246):
`self.amp = np.dot(u, self.amp)`. -/
noncomputable def StateVector.applyUnitary {n : ℕ} (sv : StateVector n)
    (u : Matrix (Fin (2 ^ n)) (Fin (2 ^ n)) ℂ) : StateVector n :=
  ⟨u.mulVec sv.amp, sv.snapshots⟩

/-- `StateVector.save_snapshot` (backends.py lines 135–138): build a copy via
the `StateVector` constructor — whose `set(self.amp)` re-validates and
renormalizes — and append it to the snapshot log.  A validation failure
propagates and leaves the log and the amplitudes untouched. -/
noncomputable def StateVector.saveSnapshot {n : ℕ} (sv : StateVector n) :
    Except ErrKind (StateVector n) :=
  match StateVector.set (n := n) ⟨fun _ => 0, []⟩ (some (List.ofFn sv.amp)) with
  | .error e => .error e
  | .ok copy => .ok ⟨sv.amp, sv.snapshots ++ [copy.amp]⟩

/-- `StateVector.density_matrix` (backends.py lines 144–151):
`np.dot(self.amp[:, np.newaxis], self.amp[np.newaxis, :])` — entry `(i, j)`
is `amp i * amp j`, with no complex conjugation. -/
noncomputable def StateVector.densityMatrix {n : ℕ} (sv : StateVector n) :
    Matrix (Fin (2 ^ n)) (Fin (2 ^ n)) ℂ :=
  fun i j => sv.amp i * sv.amp j

/-- Modelled from the spec: `utils.get_projector`, the rank-1 projector
`|v⟩⟨v|`, entry `(a, b) = v a * conj (v b)`. -/
noncomputable def getProjector (v : Fin 2 → ℂ) : Matrix (Fin 2) (Fin 2) ℂ :=
  fun a b => v a * (starRingEnd ℂ) (v b)

/-- Sequential assignment `parts[q] = m` on the array of per-qubit matrix
factors. -/
def setPart (f : ℕ → Matrix (Fin 2) (Fin 2) ℂ) (q : ℕ)
    (m : Matrix (Fin 2) (Fin 2) ℂ) : ℕ → Matrix (Fin 2) (Fin 2) ℂ :=
  fun x => if x = q then m else f x

/-- The list `itertools.product([0, 1], repeat=k)` of all `2^k` joint
outcomes, in the same order (first qubit varies slowest). -/
def bitTuples : ℕ → List (List (Fin 2))
  | 0 => [[]]
  | k + 1 => (bitTuples k).map (List.cons 0) ++ (bitTuples k).map (List.cons 1)

/-- The per-qubit factors of the projector for a joint outcome `res`:
`parts = [eye] * n_qubits`, then `parts[q] = get_projector(eigvecs[r])` for
each `(r, q)` in `zip(res, qubits)` (backends.py lines 384–389). -/
noncomputable def projParts (evecs : List (Fin 2 → ℂ)) (qs : List ℕ)
    (res : List (Fin 2)) : ℕ → Matrix (Fin 2) (Fin 2) ℂ :=
  (res.zip qs).foldl
    (fun f rq => setPart f rq.2 (getProjector (evecs.getD rq.1.1 (fun _ => 0))))
    (fun _ => 1)

/-- The full projector for one joint outcome (`kron(parts)`). -/
noncomputable def outcomeProjector (n : ℕ) (evecs : List (Fin 2 → ℂ))
    (qs : List ℕ) (res : List (Fin 2)) :
    Matrix (Fin (2 ^ n)) (Fin (2 ^ n)) ℂ :=
  kronN n (projParts evecs qs res)

/-- The unnormalized projected post-measurement vector
`projected = np.dot(projector, self.amp)` for one joint outcome. -/
noncomputable def outcomeProjected {n : ℕ} (sv : StateVector n)
    (evecs : List (Fin 2 → ℂ)) (qs : List ℕ) (res : List (Fin 2)) :
    Fin (2 ^ n) → ℂ :=
  (outcomeProjector n evecs qs res).mulVec sv.amp

/-- The (complex, pre-validation) probability
`p = np.dot(np.conj(self.amp).T, projected)` for one joint outcome. -/
noncomputable def outcomeProb {n : ℕ} (sv : StateVector n)
    (evecs : List (Fin 2 → ℂ)) (qs : List ℕ) (res : List (Fin 2)) : ℂ :=
  dotC (star sv.amp) (outcomeProjected sv evecs qs res)

/-- Resolution of the measurement eigenbasis (backends.py lines 369–376): no
eigenvalues supplied means the computational basis (any supplied eigenvectors
are ignored); eigenvalues without eigenvectors is an error.  Eigenvectors are
taken as a list of single-qubit states (the code's `eigvecs.T` rows). -/
def resolveBasis (eigvals? : Option (List ℝ))
    (eigvecs? : Option (List (Fin 2 → ℂ))) :
    Except ErrKind (List ℝ × List (Fin 2 → ℂ)) :=
  match eigvals? with
  | none => .ok ([0, 1], [ZERO, ONE])
  | some evs =>
    match eigvecs? with
    | none => .error .missingParameter
    | some vecs => .ok (evs, vecs)

/-- `StateVector.measure` (backends.py lines 327–410).  The sampled outcome
index drawn by `np.random.choice` is the explicit argument `pick`.  Returns
the post-call state together with the returned eigenvalue list or the raised
error; a raise leaves the state exactly as it was. -/
noncomputable def StateVector.measure {n : ℕ} (sv : StateVector n)
    (qs : List ℕ) (eigvals? : Option (List ℝ))
    (eigvecs? : Option (List (Fin 2 → ℂ))) (shadow snapshot : Bool)
    (pick : ℕ) : StateVector n × Except ErrKind (List ℝ) :=
  match resolveBasis eigvals? eigvecs? with
  | .error e => (sv, .error e)
  | .ok (eigvals, eigvecs) =>
    let results := bitTuples qs.length
    if ∃ res ∈ results, |(outcomeProb sv eigvecs qs res).im| > 1 / 10 ^ 15 then
      (sv, .error .complexProbability)
    else
      let result := (results.getD pick []).map fun b => eigvals.getD b.1 0
      if shadow then (sv, .ok result)
      else
        let collapse := fun (s : StateVector n) =>
          let projected := outcomeProjected sv eigvecs qs (results.getD pick [])
          ((⟨fun i => projected i / (vnormF projected : ℂ), s.snapshots⟩ :
            StateVector n), Except.ok result)
        if snapshot then
          match sv.saveSnapshot with
          | .error e => (sv, .error e)
          | .ok sv₁ => collapse sv₁
        else collapse sv

/-! ## Parameter store and instruction records (`qsim/core/instruction.py`) -/

/-- `instruction.ParameterMap`: the pool of scalar parameters plus, per
instruction (in global creation order), an optional list of pool positions.
The scalar type is a parameter (`ℝ` for the engine, `ℤ` for the computable
serialization layer). -/
structure PMap (α : Type) where
  indices : List (Option (List ℕ))
  params : List α
deriving DecidableEq

/-- A fresh `ParameterMap`. -/
def PMap.empty {α : Type} : PMap α := ⟨[], []⟩

/-- `ParameterMap.add_arg` (instruction.py lines 67–74): append each value to
the pool, recording for position `i` either the pool length at that moment
(fresh link) or `idx[i]` (existing link; an out-of-range `idx` is collapsed
to position `0` where Python would raise). -/
def PMap.addArg {α : Type} (p : PMap α) (args : List α)
    (idx? : Option (List ℕ)) : PMap α :=
  let r := args.enum.foldl
    (fun (acc : List ℕ × List α) (ia : ℕ × α) =>
      (acc.1 ++ [match idx? with
        | none => acc.2.length
        | some idx => idx.getD ia.1 0], acc.2 ++ [ia.2]))
    ([], p.params)
  ⟨p.indices ++ [some r.1], r.2⟩

/-- `ParameterMap.link_param`: record existing pool positions without
appending values. -/
def PMap.linkParam {α : Type} (p : PMap α) (idx : List ℕ) : PMap α :=
  ⟨p.indices ++ [some idx], p.params⟩

/-- `ParameterMap.add_empty`: record `None` (no parameters). -/
def PMap.addEmpty {α : Type} (p : PMap α) : PMap α :=
  ⟨p.indices ++ [none], p.params⟩

/-- `ParameterMap.add` (instruction.py lines 79–85). -/
def PMap.add {α : Type} (p : PMap α) (arg? : Option (List α))
    (idx? : Option (List ℕ)) : PMap α :=
  match arg? with
  | some args => p.addArg args idx?
  | none =>
    match idx? with
    | some idx => p.linkParam idx
    | none => p.addEmpty

/-- `ParameterMap.set` (instruction.py lines 58–59): replace the whole pool
positionally; the recorded index entries are untouched. -/
def PMap.set {α : Type} (p : PMap α) (args : List α) : PMap α :=
  ⟨p.indices, args⟩

/-- `ParameterMap.get` (instruction.py lines 87–92): the current pool values
at the recorded positions, or `none`.  An out-of-range instruction index or
pool position (a Python `IndexError`) is collapsed to `none`. -/
def PMap.get {α : Type} (p : PMap α) (i : ℕ) : Option (List α) :=
  match p.indices[i]? with
  | none => none
  | some none => none
  | some (some ixs) => ixs.mapM fun j => p.params[j]?

/-- Instruction tag: `Gate` vs `Measurement` subclass. -/
inductive InstType where
  | gate
  | meas
deriving DecidableEq

/-- An `instruction.Instruction` record.  Qubits, controls and classical bits
are stored as their integer indices (the spec: identity is the index); the
instruction's arguments live in the shared `PMap`, keyed by `idx`. -/
structure InstRec where
  idx : ℕ
  typ : InstType
  name : String
  qubits : Option (List ℕ)
  con : Option (List ℕ)
  clbits : Option (List ℕ)
  size : ℕ
  trigger : ℕ
deriving DecidableEq

/-- The global creation state: the singleton `ParameterMap` plus the
auto-incrementing `Instruction.INDEX` counter. -/
structure CState (α : Type) where
  pmap : PMap α
  nextIdx : ℕ
deriving DecidableEq

/-- A fresh creation state. -/
def CState.empty {α : Type} : CState α := ⟨PMap.empty, 0⟩

/-- The display-name prefix `"c" * len(con)`. -/
def cPrefix (k : ℕ) : String := String.mk (List.replicate k 'c')

/-- `Gate.__init__` (instruction.py lines 286–294): one `pmap.add(arg, argidx)`
call at the fresh global index, then the name is prefixed with one `c` per
control qubit.  Arguments are taken as lists (the scalar-broadcast branch of
the Python code has already produced a list per target). -/
def mkGate {α : Type} (st : CState α) (name : String)
    (qubits con : Option (List ℕ)) (arg : Option (List α))
    (argidx : Option (List ℕ)) (size trigger : ℕ) : CState α × InstRec :=
  let finalName := match con with
    | none => name
    | some cs => cPrefix cs.length ++ name
  (⟨st.pmap.add arg argidx, st.nextIdx + 1⟩,
   ⟨st.nextIdx, .gate, finalName, qubits, con, none, size, trigger⟩)

/-- `Measurement.__init__` (instruction.py lines 251–255): classical bits
default to the target qubits; one `pmap.add(None, None)` call records an
empty parameter entry. -/
def mkMeasurement {α : Type} (st : CState α) (name : String)
    (qubits clbits : Option (List ℕ)) : CState α × InstRec :=
  let cl := match clbits with
    | none => qubits
    | some l => some l
  (⟨st.pmap.add none none, st.nextIdx + 1⟩,
   ⟨st.nextIdx, .meas, name, qubits, none, cl, 1, 1⟩)

/-- `Instruction.args` (instruction.py line 186): `self.pmap.get(self.idx)`. -/
def InstRec.args {α : Type} (r : InstRec) (p : PMap α) : Option (List α) :=
  p.get r.idx

/-- `Instruction.get_arg` (instruction.py lines 188–189): `self.args[i]` when
arguments exist, else `None` (an out-of-range `i` is collapsed to `none`). -/
def InstRec.getArg {α : Type} (r : InstRec) (p : PMap α) (i : ℕ) : Option α :=
  (r.args p).bind fun l => l[i]?

/-- `Instruction.argidx` (instruction.py line 182): `self.pmap.indices[self.idx]`. -/
def InstRec.argIdx {α : Type} (r : InstRec) (p : PMap α) : Option (List ℕ) :=
  p.indices.getD r.idx none

/-! ## Circuit text format (`Instruction.to_string` / `from_string`)

This layer is computable: indices are naturals and argument scalars are
modelled as integers (the Python floats of interest in the claims are `None`
or integer-valued; decimal float formatting is not modelled). -/

/-- Python `str.join`-style concatenation with a separator. -/
def joinSep (sep : String) : List String → String
  | [] => ""
  | [x] => x
  | x :: y :: xs => x ++ sep ++ joinSep sep (y :: xs)

/-- Python `str(list_of_ints)`: `"[0, 1]"`. -/
def renderListN (l : List ℕ) : String :=
  "[" ++ joinSep ", " (l.map toString) ++ "]"

/-- Python `str` of an optional index list (`None` or `[...]`). -/
def renderOptListN : Option (List ℕ) → String
  | none => "None"
  | some l => renderListN l

/-- Python `str` of an optional argument list (integer-valued scalars). -/
def renderOptListZ : Option (List ℤ) → String
  | none => "None"
  | some l => "[" ++ joinSep ", " (l.map toString) ++ "]"

/-- `Instruction.to_dict` (instruction.py lines 206–209) with every value
already rendered as its Python `str`, in dict insertion order. -/
def toDictStr (p : PMap ℤ) (r : InstRec) : List (String × String) :=
  [("idx", toString r.idx), ("name", r.name),
   ("qbits", renderOptListN r.qubits), ("con", renderOptListN r.con),
   ("cbits", renderOptListN r.clbits), ("arg", renderOptListZ (r.args p)),
   ("argidx", renderOptListN (r.argIdx p))]

/-- `Instruction.to_string` (instruction.py lines 211–215):
`"".join(f"{key}={val}{delim}")` over the dict items. -/
def instToString (p : PMap ℤ) (r : InstRec) (delim : String := "; ") : String :=
  (toDictStr p r).foldl (fun s kv => s ++ kv.1 ++ "=" ++ kv.2 ++ delim) ""

/-- Fuel-indexed worker for Python `str.split(sep)`. -/
def splitGo (sep : List Char) : ℕ → List Char → List Char → List (List Char)
  | _, cur, [] => [cur.reverse]
  | 0, cur, rest => [cur.reverse ++ rest]
  | fuel + 1, cur, c :: cs =>
    if sep.isPrefixOf (c :: cs) then
      cur.reverse :: splitGo sep fuel [] (List.drop sep.length (c :: cs))
    else
      splitGo sep fuel (c :: cur) cs

/-- Python `str.split(sep)` on character lists (`sep` nonempty). -/
def splitOnL (sep s : List Char) : List (List Char) :=
  splitGo sep s.length [] s

/-- Decimal digit parser (`int(s)` for a nonempty digit string). -/
def parseNatL (cs : List Char) : Option ℕ :=
  if cs = [] then none
  else cs.foldl
    (fun acc c => acc.bind fun a =>
      if c.isDigit then some (a * 10 + (c.toNat - 48)) else none)
    (some 0)

/-- `int(s)` with an optional leading minus sign. -/
def parseIntL (cs : List Char) : Option ℤ :=
  match cs with
  | '-' :: rest => (parseNatL rest).map fun m => -(m : ℤ)
  | _ => (parseNatL cs).map fun m => (m : ℤ)

/-- Modelled from the spec: `utils.str_to_list` (missing from `src/`) for
integer element type — `"None"` maps to `None`, `"[a, b, ...]"` to the list
of parsed values (the inverse of Python's list formatting). -/
def strToListN (s : String) : Option (List ℕ) :=
  if s = "None" then none
  else
    let inner := (s.data.drop 1).dropLast
    if inner = [] then some []
    else (splitOnL [',', ' '] inner).mapM parseNatL

/-- Modelled from the spec: `utils.str_to_list` for numeric (`float`) element
type, restricted to integer-valued scalars. -/
def strToListZ (s : String) : Option (List ℤ) :=
  if s = "None" then none
  else
    let inner := (s.data.drop 1).dropLast
    if inner = [] then some []
    else (splitOnL [',', ' '] inner).mapM parseIntL

/-- ASCII lower-casing of one character (Python `str.lower`). -/
def lowerChar (c : Char) : Char :=
  if 'A' ≤ c ∧ c ≤ 'Z' then Char.ofNat (c.toNat + 32) else c

/-- Python `str.lower`. -/
def lowerStr (s : String) : String := String.mk (s.data.map lowerChar)

/-- `instruction.get_bit` (instruction.py lines 98–101): the bit of the
register list whose index matches, or `None` (bits are their indices). -/
def getBit (bits : List ℕ) (idx : ℕ) : Option ℕ :=
  if idx ∈ bits then some idx else none

/-- Split an instruction line into its `key=value` fields:
`string.split(delim)[:-1]`, then each field split at `=` into exactly two
parts (anything else is a Python `ValueError`, collapsed to `none`). -/
def fieldsOf (line : String) (delim : String) :
    Option (List (String × String)) :=
  ((splitOnL delim.data line.data).dropLast).mapM fun f =>
    match splitOnL ['='] f with
    | [k, v] => some (String.mk k, String.mk v)
    | _ => none

/-- Key lookup in the parsed field dict (keys are unique on the lines the
serializer produces, so first-match equals Python's dict). -/
def lookupKey (fields : List (String × String)) (k : String) : Option String :=
  (fields.find? fun kv => kv.1 = k).map (·.2)

/-- `Instruction.from_string` (instruction.py lines 217–244).  Note the two
source slips embedded faithfully: the classical-bit indices are parsed from
the `"qbits"` field (line 234), and the reconstructed `Gate` re-prefixes the
already-prefixed serialized name.  A `get_bit` miss (which Python stores as
`None`, blowing up only later) is collapsed to a `none` result. -/
def instFromString (st : CState ℤ) (line : String)
    (qubitList clbitList : List ℕ) (delim : String := "; ") :
    Option (CState ℤ × InstRec) := do
  let fields ← fieldsOf line delim
  let name ← lookupKey fields "name"
  let qbitsStr ← lookupKey fields "qbits"
  let conStr ← lookupKey fields "con"
  let argStr ← lookupKey fields "arg"
  let argidxStr ← lookupKey fields "argidx"
  let qubits : Option (List ℕ) ←
    match strToListN qbitsStr with
    | none => some none
    | some ixs => (ixs.mapM (getBit qubitList)).map some
  let con : Option (List ℕ) ←
    match strToListN conStr with
    | none => some none
    | some ixs => (ixs.mapM (getBit qubitList)).map some
  let clbits : Option (List ℕ) ←
    match strToListN qbitsStr with
    | none => some none
    | some ixs => (ixs.mapM (getBit clbitList)).map some
  let arg : Option (List ℤ) := if argStr = "None" then none else strToListZ argStr
  let argidx : Option (List ℕ) :=
    if argidxStr = "None" then none else strToListN argidxStr
  if lowerStr name = "m" then
    some (mkMeasurement st name qubits clbits)
  else
    some (mkGate st name qubits con arg argidx 1 1)

/-! ## Gate matrices and `Gate.build_matrix` -/

/-- Pauli X. -/
noncomputable def pauliX : Matrix (Fin 2) (Fin 2) ℂ := !![0, 1; 1, 0]

/-- Pauli Y. -/
noncomputable def pauliY : Matrix (Fin 2) (Fin 2) ℂ :=
  !![0, -Complex.I; Complex.I, 0]

/-- Pauli Z. -/
noncomputable def pauliZ : Matrix (Fin 2) (Fin 2) ℂ := !![1, 0; 0, -1]

/-- Hadamard. -/
noncomputable def hadamardMat : Matrix (Fin 2) (Fin 2) ℂ :=
  ((Real.sqrt 2)⁻¹ : ℝ) • !![1, 1; 1, -1]

/-- Phase gate S. -/
noncomputable def sMat : Matrix (Fin 2) (Fin 2) ℂ := !![1, 0; 0, Complex.I]

/-- T gate. -/
noncomputable def tMat : Matrix (Fin 2) (Fin 2) ℂ :=
  !![1, 0; 0, Complex.exp (Complex.I * (Real.pi / 4 : ℝ))]

/-- X rotation. -/
noncomputable def rxMat (θ : ℝ) : Matrix (Fin 2) (Fin 2) ℂ :=
  !![(Real.cos (θ / 2) : ℂ), -Complex.I * (Real.sin (θ / 2) : ℝ);
     -Complex.I * (Real.sin (θ / 2) : ℝ), (Real.cos (θ / 2) : ℂ)]

/-- Y rotation. -/
noncomputable def ryMat (θ : ℝ) : Matrix (Fin 2) (Fin 2) ℂ :=
  !![(Real.cos (θ / 2) : ℂ), (-Real.sin (θ / 2) : ℝ);
     (Real.sin (θ / 2) : ℝ), (Real.cos (θ / 2) : ℂ)]

/-- Z rotation. -/
noncomputable def rzMat (θ : ℝ) : Matrix (Fin 2) (Fin 2) ℂ :=
  !![Complex.exp (-Complex.I * (θ / 2 : ℝ)), 0;
     0, Complex.exp (Complex.I * (θ / 2 : ℝ))]

/-- Modelled from the spec: the single-qubit entries of `gates.GATE_DICT`
(missing from `src/`) — a mapping from lowercase gate name to a function
`(argument) → 2×2 matrix` (§6 of the spec); a `None` argument for a rotation
is modelled as angle `0`. -/
noncomputable def gateFunc (s : String) :
    Option (Option ℝ → Matrix (Fin 2) (Fin 2) ℂ) :=
  if s = "i" then some fun _ => 1
  else if s = "x" then some fun _ => pauliX
  else if s = "y" then some fun _ => pauliY
  else if s = "z" then some fun _ => pauliZ
  else if s = "h" then some fun _ => hadamardMat
  else if s = "s" then some fun _ => sMat
  else if s = "t" then some fun _ => tMat
  else if s = "rx" then some fun a => rxMat (a.getD 0)
  else if s = "ry" then some fun a => ryMat (a.getD 0)
  else if s = "rz" then some fun a => rzMat (a.getD 0)
  else none

/-- The display names of the registered single-qubit gates, as the `Gate`
constructors write them. -/
def registeredNames : List String :=
  ["I", "X", "Y", "Z", "H", "S", "T", "Rx", "Ry", "Rz"]

/-- Python `name.replace("c", "")`: every `'c'` removed. -/
def stripC (s : String) : String := String.mk (s.data.filter (· ≠ 'c'))

/-- Modelled from the spec: `gates.cgate` (missing from `src/`) — the
controlled expansion `(I − Π_trigger)⊗I + Π_trigger⊗G` of §4.2, generalized
to several controls via the conjunction of their trigger projectors. -/
noncomputable def cgate (cons : List ℕ) (target : ℕ)
    (g : Matrix (Fin 2) (Fin 2) ℂ) (n : ℕ) (trigger : ℕ) :
    Matrix (Fin (2 ^ n)) (Fin (2 ^ n)) ℂ :=
  let piT : Matrix (Fin 2) (Fin 2) ℂ :=
    if trigger = 0 then getProjector ZERO else getProjector ONE
  let withCons := cons.foldl (fun f c => setPart f c piT) fun _ => 1
  (1 - kronN n withCons) + kronN n (setPart withCons target g)

/-- Modelled from the spec: `gates.single_gate` (missing from `src/`) — each
target's local 2×2 matrix at its own position, identity elsewhere, combined
in one tensor product (§4.2). -/
noncomputable def singleGate (targets : List ℕ)
    (mats : List (Matrix (Fin 2) (Fin 2) ℂ)) (n : ℕ) :
    Matrix (Fin (2 ^ n)) (Fin (2 ^ n)) ℂ :=
  kronN n ((targets.zip mats).foldl (fun f tm => setPart f tm.1 tm.2) fun _ => 1)

/-- `Gate.build_matrix` (instruction.py lines 357–374) for the paths the
claims exercise.  `is_controlled` is the truthiness of `con` (`None` and `[]`
are falsy); the controlled path strips every `'c'` from the display name and
looks the base gate up (lower-cased) in the dictionary; an unknown name (a
`KeyError`) is `none`.  The `size > 1` family path calls multi-qubit gate
functions from the missing `gates.py` for which the spec gives no concrete
matrices, and is modelled as absent. -/
noncomputable def InstRec.buildMatrix (r : InstRec) (p : PMap ℝ) (n : ℕ) :
    Option (Matrix (Fin (2 ^ n)) (Fin (2 ^ n)) ℂ) :=
  match r.con with
  | some (c :: cs) =>
    match gateFunc (lowerStr (stripC r.name)) with
    | none => none
    | some f =>
      some (cgate (c :: cs) ((r.qubits.getD []).getD 0 0) (f (r.getArg p 0)) n
        r.trigger)
  | _ =>
    if r.size > 1 then none
    else
      match gateFunc (lowerStr r.name) with
      | none => none
      | some f =>
        let idxs := r.qubits.getD []
        some (singleGate idxs ((List.range idxs.length).map fun i =>
          f (r.getArg p i)) n)

/-! ## Concrete fixtures used by witnesses and counterexamples -/

/-- Creation state after the spec's round-trip scenario: a Hadamard on
qubit 0 ... (fresh store). -/
def st0 : CState ℤ := CState.empty

/-- ... the Hadamard on qubit 0 ... -/
def stH : CState ℤ × InstRec := mkGate st0 "H" (some [0]) none none none 1 1

/-- ... the controlled-X with control 0 and target 1 ... -/
def stCX : CState ℤ × InstRec :=
  mkGate stH.1 "X" (some [1]) (some [0]) none none 1 1

/-- ... and a measurement of qubit 0 into classical bit 1. -/
def stM : CState ℤ × InstRec := mkMeasurement stCX.1 "m" (some [0]) (some [1])

/-- A one-qubit engine holding `|0⟩` with an empty snapshot log. -/
noncomputable def sv1 : StateVector 1 :=
  ⟨fun i => if i.1 = 0 then 1 else 0, []⟩

/-- A one-qubit engine holding `i·|1⟩` (normalized, complex amplitudes). -/
noncomputable def svI : StateVector 1 :=
  ⟨fun i => if i.1 = 0 then 0 else Complex.I, []⟩

/-- A controlled-X gate (control 0, target 1) built against a fresh real
parameter store. -/
def gX : CState ℝ × InstRec :=
  mkGate CState.empty "X" (some [1]) (some [0]) none none 1 1

/-! ## Helper lemmas -/

theorem List.getD_ofFn' {α : Type} {N : ℕ} (f : Fin N → α) (d : α) (i : Fin N) :
    (List.ofFn f).getD i.1 d = f i := by
  have hn : i.1 < (List.ofFn f).length := by simp [i.2]
  rw [List.getD_eq_getElem _ _ hn]
  simp

theorem sum_normSq_list {m : ℕ} (l : List ℂ) (h : l.length = m) :
    (l.map Complex.normSq).sum = ∑ i : Fin m, Complex.normSq (l.getD i.1 0) := by
  subst h
  induction l with
  | nil => simp
  | cons a t ih =>
    rw [List.map_cons, List.sum_cons, ih]
    show _ = ∑ i : Fin (t.length + 1), Complex.normSq ((a :: t).getD i.1 0)
    rw [Fin.sum_univ_succ]
    simp [List.getD]

theorem lnorm_ofFn {N : ℕ} (f : Fin N → ℂ) : lnorm (List.ofFn f) = vnormF f := by
  unfold lnorm vnormF cnormSq
  rw [sum_normSq_list (m := N) (List.ofFn f) (by simp)]
  congr 1
  refine Finset.sum_congr rfl fun i _ => ?_
  rw [List.getD_ofFn' f 0 i]

theorem bitAt_eq_zero_iff {n : ℕ} (i : Fin (2 ^ n)) :
    (∀ q ∈ Finset.range n, bitAt n q i.1 = 0) ↔ i.1 = 0 := by
  constructor
  · intro h
    refine Nat.eq_of_testBit_eq fun m => ?_
    rw [Nat.zero_testBit]
    by_cases hm : m < n
    · have hq : n - 1 - (n - 1 - m) = m := by omega
      have := h (n - 1 - m) (Finset.mem_range.mpr (by omega))
      rw [Fin.ext_iff] at this
      simp only [bitAt, hq] at this
      rw [Nat.testBit_to_div_mod]
      simp [this]
    · exact Nat.testBit_lt_two_pow
        (lt_of_lt_of_le i.2 (Nat.pow_le_pow_right (by norm_num) (by omega)))
  · intro h q _
    rw [Fin.ext_iff]
    simp [bitAt, h]

theorem ZERO_apply (b : Fin 2) : ZERO b = if b = 0 then 1 else 0 := by
  fin_cases b <;> simp [ZERO]

theorem kronVec_zero_eq {n : ℕ} (i : Fin (2 ^ n)) :
    kronVecN n (fun _ => ZERO) i = if i.1 = 0 then 1 else 0 := by
  unfold kronVecN
  by_cases h : i.1 = 0
  · rw [if_pos h]
    refine Finset.prod_eq_one fun q hq => ?_
    show ZERO (bitAt n q i.1) = 1
    rw [ZERO_apply, if_pos ((bitAt_eq_zero_iff i).mpr h q hq)]
  · rw [if_neg h]
    have hex : ∃ q ∈ Finset.range n, bitAt n q i.1 ≠ 0 := by
      by_contra hc
      push_neg at hc
      exact h ((bitAt_eq_zero_iff i).mp hc)
    obtain ⟨q, hq, hbit⟩ := hex
    refine Finset.prod_eq_zero hq ?_
    show ZERO (bitAt n q i.1) = 0
    rw [ZERO_apply, if_neg hbit]

theorem defaultState_length (n : ℕ) : (defaultState n).length = 2 ^ n := by
  simp [defaultState]

theorem defaultState_getD (n : ℕ) (i : Fin (2 ^ n)) :
    (defaultState n).getD i.1 0 = if i.1 = 0 then 1 else 0 := by
  unfold defaultState
  rw [List.getD_ofFn' _ 0 i, kronVec_zero_eq]

theorem lnorm_defaultState (n : ℕ) : lnorm (defaultState n) = 1 := by
  unfold defaultState
  rw [lnorm_ofFn]
  unfold vnormF cnormSq
  have hsum : ∑ i : Fin (2 ^ n), Complex.normSq (kronVecN n (fun _ => ZERO) i)
      = 1 := by
    have h0 : (0 : Fin (2 ^ n)).1 = 0 := rfl
    calc ∑ i : Fin (2 ^ n), Complex.normSq (kronVecN n (fun _ => ZERO) i)
        = ∑ i : Fin (2 ^ n), if i = 0 then 1 else 0 := by
          refine Finset.sum_congr rfl fun i _ => ?_
          rw [kronVec_zero_eq]
          by_cases h : i.1 = 0
          · rw [if_pos h, if_pos (Fin.ext (by simp [h, h0]))]
            simp
          · rw [if_neg h, if_neg (by
              intro hc
              exact h (by simp [hc, h0]))]
            simp
      _ = 1 := by simp
  rw [hsum, Real.sqrt_one]

theorem round_ten_pow : round ((10 : ℝ) ^ 10) = 10 ^ 10 := by
  have : ((10 : ℝ) ^ 10) = (((10 ^ 10 : ℕ) : ℝ)) := by push_cast; ring
  rw [this, round_natCast]
  norm_num

theorem lnorm_nonneg (l : List ℂ) : 0 ≤ lnorm l := Real.sqrt_nonneg _

theorem lnorm_pos_of_round (l : List ℂ)
    (h : round (lnorm l * 10 ^ 10) = 10 ^ 10) : 0 < lnorm l := by
  have hb := abs_sub_round (lnorm l * 10 ^ 10)
  rw [h] at hb
  rw [abs_le] at hb
  nlinarith [hb.1]

theorem cnormSq_nonneg {N : ℕ} (v : Fin N → ℂ) : 0 ≤ cnormSq v :=
  Finset.sum_nonneg fun _ _ => Complex.normSq_nonneg _

theorem cnormSq_pos_of_ne_zero {N : ℕ} (v : Fin N → ℂ) (h : v ≠ 0) :
    0 < cnormSq v := by
  rcases lt_or_eq_of_le (cnormSq_nonneg v) with hlt | heq
  · exact hlt
  · exfalso
    apply h
    funext i
    have := (Finset.sum_eq_zero_iff_of_nonneg
      (fun j _ => Complex.normSq_nonneg (v j))).mp heq.symm i (Finset.mem_univ i)
    simpa using Complex.normSq_eq_zero.mp this

/-- Dividing a nonzero vector by its own Euclidean norm yields a unit
vector. -/
theorem vnormF_normalize {N : ℕ} (v : Fin N → ℂ) (h : v ≠ 0) :
    vnormF (fun i => v i / (vnormF v : ℂ)) = 1 := by
  have hS : 0 < cnormSq v := cnormSq_pos_of_ne_zero v h
  have hsq : vnormF v ^ 2 = cnormSq v := Real.sq_sqrt hS.le
  have hcs : cnormSq (fun i => v i / (vnormF v : ℂ)) = 1 := by
    unfold cnormSq
    have hdiv : ∀ i : Fin N, Complex.normSq (v i / (vnormF v : ℂ))
        = Complex.normSq (v i) / vnormF v ^ 2 := fun i => by
      rw [Complex.normSq_div, Complex.normSq_ofReal, sq]
    simp only [hdiv]
    rw [← Finset.sum_div, hsq]
    show cnormSq v / cnormSq v = 1
    exact div_self hS.ne'
  show Real.sqrt (cnormSq fun i => v i / (vnormF v : ℂ)) = 1
  rw [hcs, Real.sqrt_one]

/-- A unitary matrix preserves the quadratic norm of every vector. -/
theorem cnormSq_mulVec_of_unitary {N : ℕ}
    (u : Matrix (Fin N) (Fin N) ℂ) (hu : u.conjTranspose * u = 1)
    (v : Fin N → ℂ) : cnormSq (u.mulVec v) = cnormSq v := by
  have key : dotC (star (u.mulVec v)) (u.mulVec v) = dotC (star v) v := by
    unfold dotC
    have h1 : star (u.mulVec v) = star v ᵥ* u.conjTranspose :=
      Matrix.star_mulVec u v
    calc ∑ i, star (u.mulVec v) i * u.mulVec v i
        = Matrix.dotProduct (star (u.mulVec v)) (u.mulVec v) := rfl
      _ = Matrix.dotProduct (star v ᵥ* u.conjTranspose) (u.mulVec v) := by
          rw [h1]
      _ = Matrix.dotProduct ((star v ᵥ* u.conjTranspose) ᵥ* u) v := by
          rw [Matrix.dotProduct_mulVec]
      _ = Matrix.dotProduct (star v ᵥ* (u.conjTranspose * u)) v := by
          rw [Matrix.vecMul_vecMul]
      _ = Matrix.dotProduct (star v) v := by rw [hu, Matrix.vecMul_one]
      _ = ∑ i, star v i * v i := rfl
  have hcast : ∀ (w : Fin N → ℂ),
      dotC (star w) w = ((cnormSq w : ℝ) : ℂ) := by
    intro w
    unfold dotC cnormSq
    push_cast
    refine Finset.sum_congr rfl fun i _ => ?_
    rw [Pi.star_apply, Complex.star_def, mul_comm, Complex.mul_conj]
  rw [hcast, hcast] at key
  exact_mod_cast key

theorem vnormF_mulVec_of_unitary {N : ℕ}
    (u : Matrix (Fin N) (Fin N) ℂ) (hu : u.conjTranspose * u = 1)
    (v : Fin N → ℂ) (hv : vnormF v = 1) : vnormF (u.mulVec v) = 1 := by
  unfold vnormF
  rw [cnormSq_mulVec_of_unitary u hu v]
  exact hv

/-- A nonzero outcome probability forces a nonzero projected vector. -/
theorem outcomeProjected_ne_zero {n : ℕ} (sv : StateVector n)
    (evecs : List (Fin 2 → ℂ)) (qs : List ℕ) (res : List (Fin 2))
    (h : outcomeProb sv evecs qs res ≠ 0) :
    outcomeProjected sv evecs qs res ≠ 0 := by
  intro hz
  apply h
  unfold outcomeProb dotC
  rw [hz]
  simp

/-- A norm-one vector passes both `set` checks; `set` then stores it divided
by (exactly) `1`. -/
theorem set_ofFn_norm_one {n : ℕ} (sv : StateVector n)
    (v : Fin (2 ^ n) → ℂ) (hv : vnormF v = 1) :
    StateVector.set sv (some (List.ofFn v)) = .ok ⟨v, sv.snapshots⟩ := by
  have hn : lnorm (List.ofFn v) = 1 := by rw [lnorm_ofFn]; exact hv
  unfold StateVector.set
  simp only [resolveAmp]
  rw [if_neg (by simp), if_neg (by simp [hn, round_ten_pow])]
  have hamp : (fun i : Fin (2 ^ n) =>
      (List.ofFn v).getD i.1 0 / (lnorm (List.ofFn v) : ℂ)) = v := by
    funext i
    rw [List.getD_ofFn' v 0 i, hn]
    simp
  rw [hamp]

theorem saveSnapshot_of_norm_one {n : ℕ} (sv : StateVector n)
    (hv : vnormF sv.amp = 1) :
    sv.saveSnapshot = .ok ⟨sv.amp, sv.snapshots ++ [sv.amp]⟩ := by
  unfold StateVector.saveSnapshot
  rw [set_ofFn_norm_one _ sv.amp hv]

theorem set_unfolded {n : ℕ} (sv : StateVector n) (amp? : Option (List ℂ)) :
    sv.set amp? =
      if (resolveAmp n amp?).length ≠ 2 ^ n then .error .dimensionMismatch
      else if round (lnorm (resolveAmp n amp?) * 10 ^ 10) ≠ 10 ^ 10 then
        .error .notNormalized
      else .ok ⟨fun i => (resolveAmp n amp?).getD i.1 0 /
        (lnorm (resolveAmp n amp?) : ℂ), sv.snapshots⟩ := rfl

theorem set_error_kinds {n : ℕ} (sv : StateVector n) (amp? : Option (List ℂ))
    (e : ErrKind) (h : sv.set amp? = .error e) :
    e = .dimensionMismatch ∨ e = .notNormalized := by
  rw [set_unfolded] at h
  split_ifs at h
  · injection h with h'
    exact Or.inl h'.symm
  · injection h with h'
    exact Or.inr h'.symm

theorem set_none_ok {n : ℕ} (sv : StateVector n) :
    sv.set none = .ok ⟨fun i => if i.1 = 0 then 1 else 0, sv.snapshots⟩ := by
  rw [set_unfolded]
  rw [if_neg (by simp [resolveAmp, defaultState_length]),
    if_neg (by simp [resolveAmp, lnorm_defaultState, round_ten_pow])]
  have hamp : (fun i : Fin (2 ^ n) => (resolveAmp n none).getD i.1 0 /
      (lnorm (resolveAmp n none) : ℂ))
      = fun i : Fin (2 ^ n) => if i.1 = 0 then 1 else 0 := by
    funext i
    show (defaultState n).getD i.1 0 / (lnorm (defaultState n) : ℂ) = _
    rw [defaultState_getD, lnorm_defaultState]
    simp
  rw [hamp]

/-! ## Claim theorems -/

/-- Claim C3: `StateVector.set` fails with the dimension-mismatch error
exactly when the resolved amplitude vector's length differs from `2^n`;
it fails with the not-normalized error exactly when the length matches but
the norm rounded to 10 decimals differs from `1.0`; otherwise it stores the
vector divided by its measured norm; and with no vector supplied the state
becomes the all-zero computational basis product state. -/
theorem c3_set_validation (n : ℕ) (sv : StateVector n)
    (amp? : Option (List ℂ)) :
    (sv.set amp? = .error .dimensionMismatch ↔
      (resolveAmp n amp?).length ≠ 2 ^ n) ∧
    (sv.set amp? = .error .notNormalized ↔
      ((resolveAmp n amp?).length = 2 ^ n ∧
        round (lnorm (resolveAmp n amp?) * 10 ^ 10) ≠ 10 ^ 10)) ∧
    ((resolveAmp n amp?).length = 2 ^ n →
      round (lnorm (resolveAmp n amp?) * 10 ^ 10) = 10 ^ 10 →
      sv.set amp? = .ok ⟨fun i => (resolveAmp n amp?).getD i.1 0 /
        (lnorm (resolveAmp n amp?) : ℂ), sv.snapshots⟩) ∧
    (sv.set none = .ok ⟨fun i => if i.1 = 0 then 1 else 0, sv.snapshots⟩) := by
  refine ⟨?_, ?_, ?_, set_none_ok sv⟩
  · rw [set_unfolded]
    by_cases h1 : (resolveAmp n amp?).length = 2 ^ n
    · rw [if_neg (by simp [h1])]
      constructor
      · intro h
        split_ifs at h
        · injection h with h'
          exact absurd h'.symm (by simp)
      · intro h
        exact absurd h1 h
    · rw [if_pos h1]
      simp [h1]
  · rw [set_unfolded]
    by_cases h1 : (resolveAmp n amp?).length = 2 ^ n
    · rw [if_neg (by simp [h1])]
      by_cases h2 : round (lnorm (resolveAmp n amp?) * 10 ^ 10) = 10 ^ 10
      · rw [if_neg (by simp [h2])]
        simp [h1, h2]
      · rw [if_pos h2]
        exact ⟨fun _ => ⟨h1, h2⟩, fun _ => rfl⟩
    · rw [if_pos h1]
      simp [h1]
  · intro h1 h2
    rw [set_unfolded, if_neg (by simp [h1]), if_neg (by simp [h2])]

/-- Witness for C3 at concrete inputs: a length-3 vector on one qubit is a
dimension mismatch, a non-normalized vector of the right length is a
normalization failure, and `set` with no vector yields `|0⟩`. -/
theorem c3_set_validation_witness :
    sv1.set (some [0, 0, 0]) = .error .dimensionMismatch ∧
    sv1.set (some [2, 0]) = .error .notNormalized ∧
    sv1.set none = .ok ⟨fun i => if i.1 = 0 then 1 else 0, []⟩ := by
  refine ⟨(c3_set_validation 1 sv1 (some [0, 0, 0])).1.mpr (by simp [resolveAmp]),
    (c3_set_validation 1 sv1 (some [2, 0])).2.1.mpr
      ⟨by simp [resolveAmp], ?_⟩,
    (c3_set_validation 1 sv1 none).2.2.2⟩
  have h2 : lnorm [(2 : ℂ), 0] = 2 := by
    unfold lnorm
    norm_num [Complex.normSq]
    rw [show (4 : ℝ) = 2 ^ 2 by norm_num, Real.sqrt_sq (by norm_num)]
  simp only [resolveAmp, h2]
  intro hc
  have hb := abs_sub_round ((2 : ℝ) * 10 ^ 10)
  rw [hc] at hb
  rw [abs_le] at hb
  nlinarith [hb.1, hb.2]

/-- Claim C5 (code bug, `backends.py` line 151): `density_matrix` computes
`np.dot(amp[:, None], amp[None, :])` with no complex conjugation, i.e. ψψᵀ.
On the normalized one-qubit state `i·|1⟩` its `(1, 1)` entry is `-1`,
whereas the outer product ψψ† of the spec (and of the docstring's "density
matrix") has `amp 1 * conj (amp 1) = 1` there. -/
theorem c5_density_matrix_not_conjugated :
    svI.densityMatrix 1 1 = -1 ∧
    svI.amp 1 * (starRingEnd ℂ) (svI.amp 1) = 1 ∧
    svI.densityMatrix 1 1 ≠ svI.amp 1 * (starRingEnd ℂ) (svI.amp 1) ∧
    vnormF svI.amp = 1 := by
  have hI : svI.amp 1 = Complex.I := by
    show (if (1 : Fin (2 ^ 1)).1 = 0 then 0 else Complex.I) = Complex.I
    norm_num
  have h0 : svI.amp 0 = 0 := by
    show (if (0 : Fin (2 ^ 1)).1 = 0 then 0 else Complex.I) = 0
    norm_num
  refine ⟨?_, ?_, ?_, ?_⟩
  · show svI.amp 1 * svI.amp 1 = -1
    rw [hI, Complex.I_mul_I]
  · rw [hI]
    simp
  · show svI.amp 1 * svI.amp 1 ≠ _
    rw [hI, Complex.I_mul_I]
    simp
    norm_num
  · unfold vnormF cnormSq
    rw [show ∑ i, Complex.normSq (svI.amp i)
        = Complex.normSq (svI.amp 0) + Complex.normSq (svI.amp 1) from
      Fin.sum_univ_two _]
    rw [hI, h0]
    simp [Real.sqrt_one]

/-- Claim C6: `ParameterMap.set` replaces the pool positionally, and every
instruction whose recorded entry is linked to a set position reads the new
value through `args` / `get_arg` (the value fed to `build_matrix`), while
the recorded index entries themselves are unchanged. -/
theorem c6_shared_parameters (p : PMap ℝ) (r1 r2 : InstRec) (j : ℕ)
    (vals : List ℝ) (θ : ℝ)
    (h1 : p.indices[r1.idx]? = some (some [j]))
    (h2 : p.indices[r2.idx]? = some (some [j]))
    (hv : vals[j]? = some θ) :
    r1.args (p.set vals) = some [θ] ∧ r2.args (p.set vals) = some [θ] ∧
    r1.getArg (p.set vals) 0 = some θ ∧ r2.getArg (p.set vals) 0 = some θ ∧
    (p.set vals).indices = p.indices := by
  have hget : ∀ r : InstRec, p.indices[r.idx]? = some (some [j]) →
      r.args (p.set vals) = some [θ] := by
    intro r hr
    unfold InstRec.args PMap.get PMap.set
    simp only
    rw [hr]
    simp [List.mapM.loop, hv]
  refine ⟨hget r1 h1, hget r2 h2, ?_, ?_, rfl⟩
  · unfold InstRec.getArg
    rw [hget r1 h1]
    rfl
  · unfold InstRec.getArg
    rw [hget r2 h2]
    rfl

/-- Witness for C6: two concrete gate records, both linked to pool position
0 of a fresh store, read the identical value `2` after `set([2])`. -/
theorem c6_shared_parameters_witness :
    InstRec.args ⟨0, .gate, "Rx", some [0], none, none, 1, 1⟩
      ((((PMap.empty : PMap ℝ).add none (some [0])).add none
        (some [0])).set [2]) = some [2] ∧
    InstRec.args ⟨1, .gate, "Ry", some [1], none, none, 1, 1⟩
      ((((PMap.empty : PMap ℝ).add none (some [0])).add none
        (some [0])).set [2]) = some [2] := by
  have h := c6_shared_parameters
    (((PMap.empty : PMap ℝ).add none (some [0])).add none (some [0]))
    ⟨0, .gate, "Rx", some [0], none, none, 1, 1⟩
    ⟨1, .gate, "Ry", some [1], none, none, 1, 1⟩
    0 [2] 2 (by rfl) (by rfl) (by rfl)
  exact ⟨h.1, h.2.1⟩

theorem saveSnapshot_error_kinds {n : ℕ} (sv : StateVector n) (e : ErrKind)
    (h : sv.saveSnapshot = .error e) :
    e = .dimensionMismatch ∨ e = .notNormalized := by
  unfold StateVector.saveSnapshot at h
  cases heq : StateVector.set (n := n) ⟨fun _ => 0, []⟩
      (some (List.ofFn sv.amp)) with
  | error e' =>
    rw [heq] at h
    dsimp only at h
    injection h with h'
    exact h' ▸ set_error_kinds _ _ _ heq
  | ok copy =>
    rw [heq] at h
    dsimp only at h
    exact absurd h (by simp)

/-- The collapsing run of `measure` (`shadow=False`), fully evaluated: the
snapshot of the pre-measurement vector is appended first (when requested),
the amplitudes become the sampled outcome's projected vector divided by its
own norm, and the returned value is the eigenvalue list of the sampled
outcome. -/
theorem measure_collapse_eval {n : ℕ} (sv : StateVector n) (qs : List ℕ)
    (eigvals? : Option (List ℝ)) (eigvecs? : Option (List (Fin 2 → ℂ)))
    (snap : Bool) (pick : ℕ) (evals : List ℝ) (evecs : List (Fin 2 → ℂ))
    (hres : resolveBasis eigvals? eigvecs? = .ok (evals, evecs))
    (him : ∀ res ∈ bitTuples qs.length,
      |(outcomeProb sv evecs qs res).im| ≤ 1 / 10 ^ 15)
    (hnorm : vnormF sv.amp = 1) :
    sv.measure qs eigvals? eigvecs? false snap pick =
      (⟨fun i =>
          outcomeProjected sv evecs qs ((bitTuples qs.length).getD pick []) i /
            (vnormF (outcomeProjected sv evecs qs
              ((bitTuples qs.length).getD pick [])) : ℂ),
        sv.snapshots ++ if snap then [sv.amp] else []⟩,
       .ok (((bitTuples qs.length).getD pick []).map fun b =>
         evals.getD b.1 0)) := by
  unfold StateVector.measure
  rw [hres]
  dsimp only
  rw [if_neg (by push_neg; exact him), if_neg Bool.false_ne_true]
  cases snap with
  | false =>
    rw [if_neg Bool.false_ne_true]
    simp
  | true =>
    rw [if_pos rfl, saveSnapshot_of_norm_one sv hnorm]
    simp

theorem measure_error_state {n : ℕ} (sv : StateVector n) (qs : List ℕ)
    (eigvals? : Option (List ℝ)) (eigvecs? : Option (List (Fin 2 → ℂ)))
    (shadow snap : Bool) (pick : ℕ) (e : ErrKind)
    (h : (sv.measure qs eigvals? eigvecs? shadow snap pick).2 = .error e) :
    (sv.measure qs eigvals? eigvecs? shadow snap pick).1 = sv := by
  unfold StateVector.measure at h ⊢
  cases hres : resolveBasis eigvals? eigvecs? with
  | error e' =>
    rfl
  | ok pr =>
    obtain ⟨evals, evecs⟩ := pr
    rw [hres] at h
    dsimp only at h ⊢
    by_cases hex : ∃ res ∈ bitTuples qs.length,
      |(outcomeProb sv evecs qs res).im| > 1 / 10 ^ 15
    · rw [if_pos hex]
    · rw [if_neg hex] at h ⊢
      cases shadow with
      | true => rw [if_pos rfl]
      | false =>
        rw [if_neg Bool.false_ne_true] at h ⊢
        cases snap with
        | false =>
          rw [if_neg Bool.false_ne_true] at h
          exact absurd h (by simp)
        | true =>
          rw [if_pos rfl] at h ⊢
          cases hsnap : sv.saveSnapshot with
          | error e' => rfl
          | ok sv₁ =>
            rw [hsnap] at h
            dsimp only at h
            exact absurd h (by simp)

theorem measure_error_kinds {n : ℕ} (sv : StateVector n) (qs : List ℕ)
    (eigvals? : Option (List ℝ)) (eigvecs? : Option (List (Fin 2 → ℂ)))
    (shadow snap : Bool) (pick : ℕ) (evals : List ℝ)
    (evecs : List (Fin 2 → ℂ)) (e : ErrKind)
    (hres : resolveBasis eigvals? eigvecs? = .ok (evals, evecs))
    (h : (sv.measure qs eigvals? eigvecs? shadow snap pick).2 = .error e) :
    e = .complexProbability ∨ e = .dimensionMismatch ∨ e = .notNormalized := by
  unfold StateVector.measure at h
  rw [hres] at h
  dsimp only at h
  by_cases hex : ∃ res ∈ bitTuples qs.length,
    |(outcomeProb sv evecs qs res).im| > 1 / 10 ^ 15
  · rw [if_pos hex] at h
    dsimp only at h
    injection h with h'
    exact Or.inl h'.symm
  · rw [if_neg hex] at h
    cases shadow with
    | true =>
      rw [if_pos rfl] at h
      exact absurd h (by simp)
    | false =>
      rw [if_neg Bool.false_ne_true] at h
      cases snap with
      | false =>
        rw [if_neg Bool.false_ne_true] at h
        exact absurd h (by simp)
      | true =>
        rw [if_pos rfl] at h
        cases hsnap : sv.saveSnapshot with
        | error e' =>
          rw [hsnap] at h
          dsimp only at h
          injection h with h'
          exact Or.inr (h' ▸ saveSnapshot_error_kinds sv e' hsnap)
        | ok sv₁ =>
          rw [hsnap] at h
          dsimp only at h
          exact absurd h (by simp)

theorem measure_shadow_state {n : ℕ} (sv : StateVector n) (qs : List ℕ)
    (eigvals? : Option (List ℝ)) (eigvecs? : Option (List (Fin 2 → ℂ)))
    (snap : Bool) (pick : ℕ) :
    (sv.measure qs eigvals? eigvecs? true snap pick).1 = sv := by
  unfold StateVector.measure
  cases hres : resolveBasis eigvals? eigvecs? with
  | error e' => rfl
  | ok pr =>
    obtain ⟨evals, evecs⟩ := pr
    dsimp only
    by_cases hex : ∃ res ∈ bitTuples qs.length,
      |(outcomeProb sv evecs qs res).im| > 1 / 10 ^ 15
    · rw [if_pos hex]
    · rw [if_neg hex, if_pos rfl]

theorem measure_shadow_ok {n : ℕ} (sv : StateVector n) (qs : List ℕ)
    (eigvals? : Option (List ℝ)) (eigvecs? : Option (List (Fin 2 → ℂ)))
    (snap : Bool) (pick : ℕ) (evals : List ℝ) (evecs : List (Fin 2 → ℂ))
    (hres : resolveBasis eigvals? eigvecs? = .ok (evals, evecs))
    (him : ∀ res ∈ bitTuples qs.length,
      |(outcomeProb sv evecs qs res).im| ≤ 1 / 10 ^ 15) :
    sv.measure qs eigvals? eigvecs? true snap pick =
      (sv, .ok (((bitTuples qs.length).getD pick []).map fun b =>
        evals.getD b.1 0)) := by
  unfold StateVector.measure
  rw [hres]
  dsimp only
  rw [if_neg (by push_neg; exact him), if_pos rfl]

theorem measure_bad_imag {n : ℕ} (sv : StateVector n) (qs : List ℕ)
    (eigvals? : Option (List ℝ)) (eigvecs? : Option (List (Fin 2 → ℂ)))
    (shadow snap : Bool) (pick : ℕ) (evals : List ℝ)
    (evecs : List (Fin 2 → ℂ))
    (hres : resolveBasis eigvals? eigvecs? = .ok (evals, evecs))
    (hex : ∃ res ∈ bitTuples qs.length,
      |(outcomeProb sv evecs qs res).im| > 1 / 10 ^ 15) :
    sv.measure qs eigvals? eigvecs? shadow snap pick =
      (sv, .error .complexProbability) := by
  unfold StateVector.measure
  rw [hres]
  dsimp only
  rw [if_pos hex]

theorem measure_no_complexProb {n : ℕ} (sv : StateVector n) (qs : List ℕ)
    (eigvals? : Option (List ℝ)) (eigvecs? : Option (List (Fin 2 → ℂ)))
    (shadow snap : Bool) (pick : ℕ) (evals : List ℝ)
    (evecs : List (Fin 2 → ℂ))
    (hres : resolveBasis eigvals? eigvecs? = .ok (evals, evecs))
    (him : ∀ res ∈ bitTuples qs.length,
      |(outcomeProb sv evecs qs res).im| ≤ 1 / 10 ^ 15) :
    (sv.measure qs eigvals? eigvecs? shadow snap pick).2 ≠
      .error .complexProbability := by
  unfold StateVector.measure
  rw [hres]
  dsimp only
  rw [if_neg (by push_neg; exact him)]
  cases shadow with
  | true =>
    rw [if_pos rfl]
    simp
  | false =>
    rw [if_neg Bool.false_ne_true]
    cases snap with
    | false =>
      rw [if_neg Bool.false_ne_true]
      simp
    | true =>
      rw [if_pos rfl]
      cases hsnap : sv.saveSnapshot with
      | error e' =>
        dsimp only
        intro hc
        injection hc with hc'
        rcases saveSnapshot_error_kinds sv e' hsnap with h | h <;>
          simp [h] at hc'
      | ok sv₁ =>
        dsimp only
        simp

/-- Claim C2: with collapse enabled (`shadow=False`), `measure` appends a
snapshot of the pre-measurement amplitude vector first (when the snapshot
flag is set), replaces the amplitudes by the sampled outcome's projected
vector divided by that vector's own norm, and returns the list of
eigenvalues — one per target qubit — of the sampled outcome, not the
bit-tuple. -/
theorem c2_measure_collapse {n : ℕ} (sv : StateVector n) (qs : List ℕ)
    (eigvals? : Option (List ℝ)) (eigvecs? : Option (List (Fin 2 → ℂ)))
    (snap : Bool) (pick : ℕ) (evals : List ℝ) (evecs : List (Fin 2 → ℂ))
    (hres : resolveBasis eigvals? eigvecs? = .ok (evals, evecs))
    (him : ∀ res ∈ bitTuples qs.length,
      |(outcomeProb sv evecs qs res).im| ≤ 1 / 10 ^ 15)
    (hnorm : vnormF sv.amp = 1) :
    sv.measure qs eigvals? eigvecs? false snap pick =
      (⟨fun i =>
          outcomeProjected sv evecs qs ((bitTuples qs.length).getD pick []) i /
            (vnormF (outcomeProjected sv evecs qs
              ((bitTuples qs.length).getD pick [])) : ℂ),
        sv.snapshots ++ if snap then [sv.amp] else []⟩,
       .ok (((bitTuples qs.length).getD pick []).map fun b =>
         evals.getD b.1 0)) :=
  measure_collapse_eval sv qs eigvals? eigvecs? snap pick evals evecs hres him
    hnorm

/-- Claim C4: the engine's norm-one invariant.  Initialization fails
atomically (the prior state survives any validation error) and otherwise
establishes norm one; applying a unitary operator preserves norm one;
a collapsing measurement of a positive-probability outcome preserves norm
one; and any measurement error leaves the state untouched. -/
theorem c4_norm_invariant :
    (∀ (n : ℕ) (sv : StateVector n) (amp? : Option (List ℂ)) (e : ErrKind),
      (sv.setMut amp?).2 = some e → (sv.setMut amp?).1 = sv) ∧
    (∀ (n : ℕ) (sv : StateVector n) (amp? : Option (List ℂ))
      (sv' : StateVector n), sv.set amp? = .ok sv' → vnormF sv'.amp = 1) ∧
    (∀ (n : ℕ) (sv : StateVector n)
      (u : Matrix (Fin (2 ^ n)) (Fin (2 ^ n)) ℂ),
      u.conjTranspose * u = 1 → vnormF sv.amp = 1 →
      vnormF (sv.applyUnitary u).amp = 1) ∧
    (∀ (n : ℕ) (sv : StateVector n) (qs : List ℕ)
      (eigvals? : Option (List ℝ)) (eigvecs? : Option (List (Fin 2 → ℂ)))
      (snap : Bool) (pick : ℕ) (evals : List ℝ) (evecs : List (Fin 2 → ℂ))
      (sv' : StateVector n) (r : List ℝ),
      resolveBasis eigvals? eigvecs? = .ok (evals, evecs) →
      vnormF sv.amp = 1 →
      outcomeProb sv evecs qs ((bitTuples qs.length).getD pick []) ≠ 0 →
      sv.measure qs eigvals? eigvecs? false snap pick = (sv', .ok r) →
      vnormF sv'.amp = 1) ∧
    (∀ (n : ℕ) (sv : StateVector n) (qs : List ℕ)
      (eigvals? : Option (List ℝ)) (eigvecs? : Option (List (Fin 2 → ℂ)))
      (shadow snap : Bool) (pick : ℕ) (e : ErrKind),
      (sv.measure qs eigvals? eigvecs? shadow snap pick).2 = .error e →
      (sv.measure qs eigvals? eigvecs? shadow snap pick).1 = sv) := by
  refine ⟨?_, ?_, ?_, ?_, ?_⟩
  · intro n sv amp? e h
    unfold StateVector.setMut at h ⊢
    cases heq : sv.set amp? with
    | error e' => rfl
    | ok sv' =>
      rw [heq] at h
      exact absurd h (by simp)
  · intro n sv amp? sv' h
    rw [set_unfolded] at h
    split_ifs at h with h1 h2
    have hlen : (resolveAmp n amp?).length = 2 ^ n := not_not.mp h1
    have hround : round (lnorm (resolveAmp n amp?) * 10 ^ 10) = 10 ^ 10 :=
      not_not.mp h2
    injection h with h'
    rw [← h']
    have hv : lnorm (resolveAmp n amp?)
        = vnormF (fun i : Fin (2 ^ n) => (resolveAmp n amp?).getD i.1 0) := by
      unfold lnorm vnormF cnormSq
      rw [sum_normSq_list (resolveAmp n amp?) hlen]
    have hpos : 0 < lnorm (resolveAmp n amp?) :=
      lnorm_pos_of_round _ hround
    have hne : (fun i : Fin (2 ^ n) => (resolveAmp n amp?).getD i.1 0) ≠ 0 := by
      intro hz
      rw [hv, hz] at hpos
      unfold vnormF cnormSq at hpos
      simp at hpos
    show vnormF (fun i : Fin (2 ^ n) => (resolveAmp n amp?).getD i.1 0 /
      (lnorm (resolveAmp n amp?) : ℂ)) = 1
    rw [hv]
    exact vnormF_normalize _ hne
  · intro n sv u hu hnorm
    exact vnormF_mulVec_of_unitary u hu sv.amp hnorm
  · intro n sv qs eigvals? eigvecs? snap pick evals evecs sv' r hres hnorm
      hprob hsucc
    by_cases hex : ∃ res ∈ bitTuples qs.length,
      |(outcomeProb sv evecs qs res).im| > 1 / 10 ^ 15
    · rw [measure_bad_imag sv qs eigvals? eigvecs? false snap pick evals evecs
        hres hex] at hsucc
      exact absurd (congrArg Prod.snd hsucc) (by simp)
    · push_neg at hex
      rw [measure_collapse_eval sv qs eigvals? eigvecs? snap pick evals evecs
        hres hex hnorm] at hsucc
      have h1 := congrArg Prod.fst hsucc
      dsimp only at h1
      rw [← h1]
      exact vnormF_normalize _
        (outcomeProjected_ne_zero sv evecs qs _ hprob)
  · intro n sv qs eigvals? eigvecs? shadow snap pick e h
    exact measure_error_state sv qs eigvals? eigvecs? shadow snap pick e h

/-- Claim C7: the measurement fails with the complex-probability error
exactly when some joint outcome's probability has imaginary part larger
than `1e-15` in absolute value, and in that case the state is untouched
(the check precedes sampling and collapse). -/
theorem c7_complex_probability_validation {n : ℕ} (sv : StateVector n)
    (qs : List ℕ) (eigvals? : Option (List ℝ))
    (eigvecs? : Option (List (Fin 2 → ℂ))) (shadow snap : Bool) (pick : ℕ)
    (evals : List ℝ) (evecs : List (Fin 2 → ℂ))
    (hres : resolveBasis eigvals? eigvecs? = .ok (evals, evecs)) :
    (((sv.measure qs eigvals? eigvecs? shadow snap pick).2 =
        .error .complexProbability) ↔
      ∃ res ∈ bitTuples qs.length,
        |(outcomeProb sv evecs qs res).im| > 1 / 10 ^ 15) ∧
    ((∃ res ∈ bitTuples qs.length,
        |(outcomeProb sv evecs qs res).im| > 1 / 10 ^ 15) →
      (sv.measure qs eigvals? eigvecs? shadow snap pick).1 = sv) := by
  constructor
  · constructor
    · intro h
      by_contra hex
      push_neg at hex
      exact measure_no_complexProb sv qs eigvals? eigvecs? shadow snap pick
        evals evecs hres hex h
    · intro hex
      rw [measure_bad_imag sv qs eigvals? eigvecs? shadow snap pick evals
        evecs hres hex]
  · intro hex
    rw [measure_bad_imag sv qs eigvals? eigvecs? shadow snap pick evals evecs
      hres hex]

/-- Claim C8 (amended): `measure` fails with the missing-parameter error
exactly when eigenvalues are supplied without eigenvectors; supplying
eigenvectors without eigenvalues is NOT an error — they are silently
ignored and the computational basis is used. -/
theorem c8_missing_parameter_iff {n : ℕ} (sv : StateVector n) (qs : List ℕ)
    (eigvals? : Option (List ℝ)) (eigvecs? : Option (List (Fin 2 → ℂ)))
    (shadow snap : Bool) (pick : ℕ) :
    ((sv.measure qs eigvals? eigvecs? shadow snap pick).2 =
      .error .missingParameter) ↔
    (eigvals?.isSome = true ∧ eigvecs? = none) := by
  cases eigvals? with
  | none =>
    simp only [Option.isSome_none, Bool.false_eq_true, false_and, iff_false]
    intro h
    have := measure_error_kinds sv qs none eigvecs? shadow snap pick [0, 1]
      [ZERO, ONE] .missingParameter rfl h
    simp at this
  | some evs =>
    cases eigvecs? with
    | none =>
      constructor
      · intro _
        exact ⟨rfl, rfl⟩
      · intro _
        rfl
    | some vecs =>
      constructor
      · intro h
        have := measure_error_kinds sv qs (some evs) (some vecs) shadow snap
          pick evs vecs .missingParameter rfl h
        simp at this
      · intro hc
        exact absurd hc.2 (by simp)

/-- Claim C10: with `shadow=True` the measurement leaves the engine state —
amplitudes and snapshot log — completely unchanged regardless of the
snapshot flag, and (when the validation passes) its only effect is
returning the sampled outcome's eigenvalue list. -/
theorem c10_shadow_frame :
    (∀ (n : ℕ) (sv : StateVector n) (qs : List ℕ)
      (eigvals? : Option (List ℝ)) (eigvecs? : Option (List (Fin 2 → ℂ)))
      (snap : Bool) (pick : ℕ),
      (sv.measure qs eigvals? eigvecs? true snap pick).1 = sv) ∧
    (∀ (n : ℕ) (sv : StateVector n) (qs : List ℕ)
      (eigvals? : Option (List ℝ)) (eigvecs? : Option (List (Fin 2 → ℂ)))
      (snap : Bool) (pick : ℕ) (evals : List ℝ) (evecs : List (Fin 2 → ℂ)),
      resolveBasis eigvals? eigvecs? = .ok (evals, evecs) →
      (∀ res ∈ bitTuples qs.length,
        |(outcomeProb sv evecs qs res).im| ≤ 1 / 10 ^ 15) →
      sv.measure qs eigvals? eigvecs? true snap pick =
        (sv, .ok (((bitTuples qs.length).getD pick []).map fun b =>
          evals.getD b.1 0))) :=
  ⟨fun _ sv qs a b snap pick => measure_shadow_state sv qs a b snap pick,
   fun _ sv qs a b snap pick evals evecs hres him =>
     measure_shadow_ok sv qs a b snap pick evals evecs hres him⟩

theorem bitAt_one (i : Fin (2 ^ 1)) : bitAt 1 0 i.1 = i := by
  apply Fin.ext
  show i.1 / 2 ^ (1 - 1 - 0) % 2 = i.1
  have h2 : i.1 < 2 := by
    have := i.2
    norm_num at this
    exact this
  norm_num [Nat.mod_eq_of_lt h2]

theorem kronN_one_apply (parts : ℕ → Matrix (Fin 2) (Fin 2) ℂ)
    (i j : Fin (2 ^ 1)) : kronN 1 parts i j = parts 0 i j := by
  unfold kronN
  rw [Finset.prod_range_one, bitAt_one i, bitAt_one j]

theorem mulVec_two (M : Matrix (Fin (2 ^ 1)) (Fin (2 ^ 1)) ℂ)
    (v : Fin (2 ^ 1) → ℂ) (i : Fin (2 ^ 1)) :
    M.mulVec v i = M i 0 * v 0 + M i 1 * v 1 := by
  show ∑ j : Fin 2, M i j * v j = _
  rw [Fin.sum_univ_two]

theorem vnormF_sv1 : vnormF sv1.amp = 1 := by
  unfold vnormF cnormSq
  rw [show ∑ i, Complex.normSq (sv1.amp i)
      = Complex.normSq (sv1.amp 0) + Complex.normSq (sv1.amp 1) from
    Fin.sum_univ_two _]
  have h0 : sv1.amp 0 = 1 := by
    show (if (0 : Fin (2 ^ 1)).1 = 0 then 1 else 0 : ℂ) = 1
    norm_num
  have h1 : sv1.amp 1 = 0 := by
    show (if (1 : Fin (2 ^ 1)).1 = 0 then 1 else 0 : ℂ) = 0
    norm_num
  rw [h0, h1]
  simp [Real.sqrt_one]

theorem outcomeProjected_sv1_zero :
    outcomeProjected sv1 [ZERO, ONE] [0] [0] = sv1.amp := by
  funext i
  have hM : ∀ j : Fin (2 ^ 1),
      outcomeProjector 1 [ZERO, ONE] [0] [(0 : Fin 2)] i j
        = ZERO i * (starRingEnd ℂ) (ZERO j) := by
    intro j
    show kronN 1 (setPart (fun _ => 1) 0 (getProjector ZERO)) i j = _
    rw [kronN_one_apply]
    simp [setPart, getProjector]
  show (outcomeProjector 1 [ZERO, ONE] [0] [0]).mulVec sv1.amp i = sv1.amp i
  rw [mulVec_two, hM 0, hM 1]
  fin_cases i <;> simp [ZERO, sv1]

theorem outcomeProjected_sv1_one :
    outcomeProjected sv1 [ZERO, ONE] [0] [1] = 0 := by
  funext i
  have hM : ∀ j : Fin (2 ^ 1),
      outcomeProjector 1 [ZERO, ONE] [0] [(1 : Fin 2)] i j
        = ONE i * (starRingEnd ℂ) (ONE j) := by
    intro j
    show kronN 1 (setPart (fun _ => 1) 0 (getProjector ONE)) i j = _
    rw [kronN_one_apply]
    simp [setPart, getProjector]
  show (outcomeProjector 1 [ZERO, ONE] [0] [1]).mulVec sv1.amp i = 0
  rw [mulVec_two, hM 0, hM 1]
  have h0 : sv1.amp 0 = 1 := by
    show (if (0 : Fin (2 ^ 1)).1 = 0 then 1 else 0 : ℂ) = 1
    norm_num
  have h1 : sv1.amp 1 = 0 := by
    show (if (1 : Fin (2 ^ 1)).1 = 0 then 1 else 0 : ℂ) = 0
    norm_num
  rw [h0, h1]
  simp [ONE]

theorem outcomeProb_sv1_zero : outcomeProb sv1 [ZERO, ONE] [0] [0] = 1 := by
  unfold outcomeProb dotC
  rw [show outcomeProjected sv1 [ZERO, ONE] [0] [0] = sv1.amp from
    outcomeProjected_sv1_zero]
  rw [show ∑ i, star sv1.amp i * sv1.amp i
      = star sv1.amp 0 * sv1.amp 0 + star sv1.amp 1 * sv1.amp 1 from
    Fin.sum_univ_two _]
  have h0 : sv1.amp 0 = 1 := by
    show (if (0 : Fin (2 ^ 1)).1 = 0 then 1 else 0 : ℂ) = 1
    norm_num
  have h1 : sv1.amp 1 = 0 := by
    show (if (1 : Fin (2 ^ 1)).1 = 0 then 1 else 0 : ℂ) = 0
    norm_num
  simp [Pi.star_apply, h0, h1]

theorem outcomeProb_sv1_one : outcomeProb sv1 [ZERO, ONE] [0] [1] = 0 := by
  unfold outcomeProb dotC
  rw [show outcomeProjected sv1 [ZERO, ONE] [0] [1] = 0 from
    outcomeProjected_sv1_one]
  simp

theorem him_sv1 : ∀ res ∈ bitTuples 1,
    |(outcomeProb sv1 [ZERO, ONE] [0] res).im| ≤ 1 / 10 ^ 15 := by
  intro res hmem
  rw [show bitTuples 1 = [[0], [1]] from rfl] at hmem
  simp only [List.mem_cons, List.not_mem_nil, or_false] at hmem
  rcases hmem with rfl | rfl
  · rw [outcomeProb_sv1_zero]
    norm_num
  · rw [outcomeProb_sv1_one]
    norm_num

theorem measure_sv1_eval : sv1.measure [0] none none false true 0 =
    (⟨sv1.amp, [sv1.amp]⟩, .ok [0]) := by
  rw [measure_collapse_eval sv1 [0] none none true 0 [0, 1] [ZERO, ONE] rfl
    him_sv1 vnormF_sv1]
  have hproj : outcomeProjected sv1 [ZERO, ONE] [0]
      ((bitTuples [(0 : ℕ)].length).getD 0 []) = sv1.amp :=
    outcomeProjected_sv1_zero
  rw [hproj, vnormF_sv1]
  refine Prod.ext ?_ ?_
  · show (⟨fun i => sv1.amp i / ((1 : ℝ) : ℂ), sv1.snapshots ++ [sv1.amp]⟩ :
      StateVector 1) = ⟨sv1.amp, [sv1.amp]⟩
    congr 1
    funext i
    simp
  · rfl

/-- Witness for C2 at a concrete input: measuring `|0⟩` in the computational
basis with collapse and snapshotting, sampling outcome 0. -/
theorem c2_measure_collapse_witness :
    resolveBasis none none = .ok ([0, 1], [ZERO, ONE]) ∧
    vnormF sv1.amp = 1 ∧
    sv1.measure [0] none none false true 0 =
      (⟨fun i =>
          outcomeProjected sv1 [ZERO, ONE] [0] ((bitTuples 1).getD 0 []) i /
            (vnormF (outcomeProjected sv1 [ZERO, ONE] [0]
              ((bitTuples 1).getD 0 [])) : ℂ),
        sv1.snapshots ++ if true then [sv1.amp] else []⟩,
       .ok (((bitTuples 1).getD 0 []).map fun b =>
         [(0 : ℝ), 1].getD b.1 0)) :=
  ⟨rfl, vnormF_sv1,
    c2_measure_collapse sv1 [0] none none true 0 [0, 1] [ZERO, ONE] rfl
      him_sv1 vnormF_sv1⟩

/-- Witness for C4 at concrete inputs: a failed `set` leaves `|0⟩` in place,
the default initialization and the identity unitary and a collapsing
measurement all preserve norm one, and an erroring measurement leaves the
state unchanged. -/
theorem c4_norm_invariant_witness :
    (sv1.setMut (some [0, 0, 0])).1 = sv1 ∧
    vnormF ((⟨fun i => if i.1 = 0 then 1 else 0, sv1.snapshots⟩ :
      StateVector 1)).amp = 1 ∧
    vnormF (sv1.applyUnitary 1).amp = 1 ∧
    vnormF ((⟨sv1.amp, [sv1.amp]⟩ : StateVector 1)).amp = 1 ∧
    (sv1.measure [0] (some [1, -1]) none true true 0).1 = sv1 := by
  have hset : sv1.set (some [0, 0, 0]) = .error .dimensionMismatch := by
    rw [set_unfolded, if_pos (by simp [resolveAmp])]
  refine ⟨?_, ?_, ?_, ?_, ?_⟩
  · refine c4_norm_invariant.1 1 sv1 (some [0, 0, 0]) .dimensionMismatch ?_
    unfold StateVector.setMut
    rw [hset]
  · exact c4_norm_invariant.2.1 1 sv1 none _ (set_none_ok sv1)
  · exact c4_norm_invariant.2.2.1 1 sv1 1 (by simp) vnormF_sv1
  · refine c4_norm_invariant.2.2.2.1 1 sv1 [0] none none true 0 [0, 1]
      [ZERO, ONE] _ [0] rfl vnormF_sv1 ?_ measure_sv1_eval
    show outcomeProb sv1 [ZERO, ONE] [0] [0] ≠ 0
    rw [outcomeProb_sv1_zero]
    norm_num
  · exact c4_norm_invariant.2.2.2.2 1 sv1 [0] (some [1, -1]) none true true 0
      .missingParameter rfl

/-- Witness for C7 at a concrete input: the computational-basis measurement
of `|0⟩`, whose outcome probabilities are exactly real. -/
theorem c7_complex_probability_validation_witness :
    (((sv1.measure [0] none none true false 0).2 =
        .error .complexProbability) ↔
      ∃ res ∈ bitTuples 1,
        |(outcomeProb sv1 [ZERO, ONE] [0] res).im| > 1 / 10 ^ 15) ∧
    ((∃ res ∈ bitTuples 1,
        |(outcomeProb sv1 [ZERO, ONE] [0] res).im| > 1 / 10 ^ 15) →
      (sv1.measure [0] none none true false 0).1 = sv1) :=
  c7_complex_probability_validation sv1 [0] none none true false 0 [0, 1]
    [ZERO, ONE] rfl

/-- Counterexample for C8 as stated: supplying eigenvectors WITHOUT
eigenvalues does not raise the missing-parameter error — the measurement
succeeds (the supplied eigenvectors are silently ignored and the
computational basis is used). -/
theorem c8_missing_parameter_counterexample :
    sv1.measure [0] none (some [ONE]) true true 0 = (sv1, .ok [0]) := by
  rw [measure_shadow_ok sv1 [0] none (some [ONE]) true 0 [0, 1] [ZERO, ONE]
    rfl him_sv1]
  rfl

/-- Witness for C10 at a concrete input: a shadow measurement of `|0⟩`
sampling outcome 1 leaves the state untouched and returns eigenvalue 1. -/
theorem c10_shadow_frame_witness :
    (sv1.measure [0] none none true false 1).1 = sv1 ∧
    sv1.measure [0] none none true false 1 =
      (sv1, .ok (((bitTuples 1).getD 1 []).map fun b =>
        [(0 : ℝ), 1].getD b.1 0)) :=
  ⟨c10_shadow_frame.1 1 sv1 [0] none none false 1,
   c10_shadow_frame.2 1 sv1 [0] none none false 1 [0, 1] [ZERO, ONE] rfl
     him_sv1⟩

/-- Claim C1 (code bug): the serialize→parse round trip of the spec's own
scenario breaks twice.  The controlled-X serialized as `name=cX` is
reconstructed with name `ccX` (`Gate.__init__` re-prefixes the
already-prefixed name), and a measurement of qubit 0 into classical bit 1
(serialized `cbits=[1]`) is reconstructed with classical bits `[0]` because
`Instruction.from_string` reads the `qbits` field (instruction.py line 234).
The gate's qubit and control indices themselves do survive. -/
theorem c1_roundtrip_failure :
    stCX.2.name = "cX" ∧
    (instFromString stM.1 (instToString stCX.1.pmap stCX.2) [0, 1]
      [0, 1]).map (fun x => x.2.name) = some "ccX" ∧
    (instFromString stM.1 (instToString stCX.1.pmap stCX.2) [0, 1]
      [0, 1]).map (fun x => (x.2.qubits, x.2.con)) =
      some (some [1], some [0]) ∧
    stM.2.clbits = some [1] ∧
    (instFromString stM.1 (instToString stM.1.pmap stM.2) [0, 1]
      [0, 1]).map (fun x => x.2.clbits) = some (some [0]) := by
  refine ⟨rfl, by decide, by decide, rfl, by decide⟩

theorem stripC_cPrefix (k : ℕ) (s : String) :
    stripC (cPrefix k ++ s) = stripC s := by
  unfold stripC cPrefix
  have hdata : (String.mk (List.replicate k 'c') ++ s).data
      = List.replicate k 'c' ++ s.data := rfl
  rw [hdata, List.filter_append]
  have hrep : (List.replicate k 'c').filter (fun c => c ≠ 'c') = [] := by
    induction k with
    | zero => rfl
    | succ m ih => simp [List.replicate, ih]
  rw [hrep, List.nil_append]

theorem stripC_registered (base : String) (hb : base ∈ registeredNames) :
    stripC base = base := by
  unfold registeredNames at hb
  simp only [List.mem_cons, List.not_mem_nil, or_false] at hb
  rcases hb with rfl | rfl | rfl | rfl | rfl | rfl | rfl | rfl | rfl | rfl <;>
    rfl

/-- Claim C9: for every registered base gate name, the `c`-per-control name
prefix is display-only — `build_matrix` of the controlled gate equals
`build_matrix` of the same record with the unprefixed name, and both equal
the controlled expansion `cgate` of exactly the base gate's matrix. -/
theorem c9_controlled_prefix_display_only (base : String)
    (hb : base ∈ registeredNames) (r : InstRec) (p : PMap ℝ) (n k c : ℕ)
    (cs : List ℕ) (hname : r.name = cPrefix k ++ base)
    (hcon : r.con = some (c :: cs)) :
    r.buildMatrix p n = InstRec.buildMatrix
      ⟨r.idx, r.typ, base, r.qubits, r.con, r.clbits, r.size, r.trigger⟩ p n ∧
    r.buildMatrix p n = (gateFunc (lowerStr base)).map fun f =>
      cgate (c :: cs) ((r.qubits.getD []).getD 0 0) (f (r.getArg p 0)) n
        r.trigger := by
  have hstrip : stripC r.name = base := by
    rw [hname, stripC_cPrefix, stripC_registered base hb]
  have hstrip2 : stripC base = base := stripC_registered base hb
  refine ⟨?_, ?_⟩
  · cases hgf : gateFunc (lowerStr base) with
    | none =>
      simp [InstRec.buildMatrix, hcon, hstrip, hstrip2, hgf]
    | some f =>
      simp [InstRec.buildMatrix, hcon, hstrip, hstrip2, hgf, InstRec.getArg,
        InstRec.args]
  · cases hgf : gateFunc (lowerStr base) with
    | none =>
      simp [InstRec.buildMatrix, hcon, hstrip, hstrip2, hgf]
    | some f =>
      simp [InstRec.buildMatrix, hcon, hstrip, hstrip2, hgf, InstRec.getArg,
        InstRec.args]

/-- Witness for C9 at a concrete input: the controlled-X record named `cX`
builds exactly the controlled expansion of the Pauli-X dictionary entry. -/
theorem c9_controlled_prefix_display_only_witness :
    gX.2.buildMatrix gX.1.pmap 2 = InstRec.buildMatrix
      ⟨gX.2.idx, gX.2.typ, "X", gX.2.qubits, gX.2.con, gX.2.clbits,
        gX.2.size, gX.2.trigger⟩ gX.1.pmap 2 ∧
    gX.2.buildMatrix gX.1.pmap 2 = (gateFunc (lowerStr "X")).map fun f =>
      cgate [0] ((gX.2.qubits.getD []).getD 0 0) (f (gX.2.getArg gX.1.pmap 0))
        2 gX.2.trigger :=
  c9_controlled_prefix_display_only "X" (by simp [registeredNames]) gX.2
    gX.1.pmap 2 1 0 [] rfl rfl

end Qsim
